import Mathlib

/-!
Shallow embedding of the interactive navigation core of a terminal disk-usage
explorer (`src/interactive/app/eventloop.rs`): the navigation/focus state
machine and its key-driven transition logic, together with theorems about its
behaviour.

Tree node indices (`TreeIndex` in the source, petgraph `NodeIndex`) are
modelled as `Nat`.  The directory tree supplied by the traversal collaborator
is modelled as explicit `children` / `parent` / `size` maps, mirroring the
petgraph outgoing-edge, incoming-edge and node-weight queries used by the
event loop.
-/

namespace Dua

/-- Modelled from the spec: an entry bundle pairs a child node's reference
with precomputed display data; only the node reference (`index`) and the size
used for sorting matter to the navigation core.  The real `EntryDataBundle`
lives outside the provided source file. -/
structure EntryDataBundle where
  index : Nat
  size : Nat
deriving DecidableEq

/-- Modelled from the spec: the directory tree handle supplied by the
traversal collaborator — a directed tree with parent-to-child edges, an
incoming-edge (parent) query, node sizes, and a distinguished root index. -/
structure Tree where
  children : Nat → List Nat
  parent : Nat → Option Nat
  size : Nat → Nat
  root_index : Nat

/-- A tree is well formed when the incoming-edge (parent) relation agrees
with the child lists: every child's parent edge leads back to the node it is
listed under. -/
def Tree.WF (t : Tree) : Prop :=
  ∀ p c, c ∈ t.children p → t.parent c = some p

/-- Modelled from the spec: the toggleable sort mode, size ascending or
descending; the real `SortMode` lives outside the provided source file. -/
inductive SortMode where
  | SizeAscending
  | SizeDescending
deriving DecidableEq

/-- Modelled from the spec: `toggle_sort` flips `sorting` between its
size-ascending and size-descending variants. -/
def SortMode.toggle_size : SortMode → SortMode
  | .SizeAscending => .SizeDescending
  | .SizeDescending => .SizeAscending

/-- Insert one element into a list ordered by `le` (helper for the sort used
by `sorted_entries`). -/
def insertBy (le : EntryDataBundle → EntryDataBundle → Bool) (x : EntryDataBundle) :
    List EntryDataBundle → List EntryDataBundle
  | [] => [x]
  | y :: ys => if le x y then x :: y :: ys else y :: insertBy le x ys

/-- Insertion sort by `le` (helper for `sorted_entries`). -/
def sortBy (le : EntryDataBundle → EntryDataBundle → Bool) :
    List EntryDataBundle → List EntryDataBundle
  | [] => []
  | x :: xs => insertBy le x (sortBy le xs)

/-- Modelled from the spec: `sorted_entries` lists the children of a node as
entry bundles, sorted by size under the active sort mode.  The real
`sorted_entries` lives outside the provided source file; only the facts that
it lists exactly the children of the given node and is freshly computed on
each call matter to the claims below. -/
def sorted_entries (t : Tree) (node : Nat) (sorting : SortMode) : List EntryDataBundle :=
  let es := (t.children node).map (fun c => { index := c, size := t.size c })
  match sorting with
  | .SizeAscending => sortBy (fun a b => decide (a.size ≤ b.size)) es
  | .SizeDescending => sortBy (fun a b => decide (b.size ≤ a.size)) es

/-- `FocussedPane` from the source: which pane receives pane-specific keys. -/
inductive FocussedPane where
  | Main
  | Help
deriving DecidableEq

/-- `AppState` from the source: the navigation state. -/
structure AppState where
  root : Nat
  selected : Option Nat
  entries : List EntryDataBundle
  sorting : SortMode
  message : Option String
  focussed : FocussedPane
deriving DecidableEq

/-- The slice of `TerminalApp` the event loop mutates: the navigation state
plus the window's help pane (`window.help_pane`), modelled as the pane's
scroll offset when present.  (`ReactHelpPane` lives outside the provided
source file; modelled from the spec, its scroll offset is a non-negative
integer that starts at 0.) -/
structure App where
  state : AppState
  help_pane : Option Nat
deriving DecidableEq

/-- `CursorDirection` from the source. -/
inductive CursorDirection where
  | PageDown
  | Down
  | Up
  | PageUp
deriving DecidableEq

/-- A key event, as matched by the event loop: a plain character, a
control-modified character, or any other key (which matches no arm). -/
inductive KeyEvt where
  | char (c : Char)
  | ctrl (c : Char)
  | other

/-- `find_position` of itertools, as used on the entry list: the zero-based
position of the first element satisfying the predicate. -/
def find_position (p : EntryDataBundle → Bool) : List EntryDataBundle → Option Nat
  | [] => none
  | b :: bs => if p b then some 0 else (find_position p bs).map (· + 1)

/-- `update_message` from the source: clear the transient message at the
start of every processed key event. -/
def update_message (s : AppState) : AppState :=
  { s with message := none }

/-- `cycle_focus` from the source: move focus to the help pane only if the
overlay exists; from the help pane always back to main.  The overlay itself
is left untouched. -/
def cycle_focus (a : App) : App :=
  { a with state := { a.state with focussed :=
      match a.state.focussed, a.help_pane with
      | .Main, some _ => .Help
      | .Help, _ => .Main
      | .Main, none => .Main } }

/-- `toggle_help_pane` from the source: from main, create the overlay (scroll
0) and focus it; from help, destroy the overlay and focus main. -/
def toggle_help_pane (a : App) : App :=
  match a.state.focussed with
  | .Main => { state := { a.state with focussed := .Help }, help_pane := some 0 }
  | .Help => { state := { a.state with focussed := .Main }, help_pane := none }

/-- `open_that` from the source: invokes the external opener on the selected
path and ignores the result; it does not mutate any navigation state. -/
def open_that (s : AppState) : AppState := s

/-- `exit_node` from the source: ascend to the parent of the current root if
one exists, rebuilding the entry list and selecting its first entry;
otherwise report "Top level reached". -/
def exit_node (t : Tree) (s : AppState) : AppState :=
  match t.parent s.root with
  | some parent_idx =>
    let entries := sorted_entries t parent_idx s.sorting
    { s with root := parent_idx, entries := entries,
             selected := (entries.get? 0).map (fun b => b.index) }
  | none => { s with message := some "Top level reached" }

/-- `enter_node` from the source: descend into the selected node.  The entry
list is rebuilt (and stored) first; if it is non-empty the root moves and the
first entry is selected, otherwise a notice is reported. -/
def enter_node (t : Tree) (s : AppState) : AppState :=
  match s.selected with
  | some new_root =>
    match (sorted_entries t new_root s.sorting).get? 0 with
    | some b =>
      { s with entries := sorted_entries t new_root s.sorting, root := new_root,
               selected := some b.index }
    | none =>
      { s with entries := sorted_entries t new_root s.sorting,
               message := some "Entry is a file or an empty directory" }
  | none => s

/-- `scroll_help` from the source: adjust the help pane's scroll offset with
saturating arithmetic (`Nat` subtraction saturates at 0), by 1 for up/down
and by 10 for page movements; no-op when the pane does not exist. -/
def scroll_help (a : App) (direction : CursorDirection) : App :=
  match a.help_pane with
  | some scroll =>
    { a with help_pane := some (match direction with
        | .Down => scroll + 1
        | .Up => scroll - 1
        | .PageDown => scroll + 10
        | .PageUp => scroll - 10) }
  | none => a

/-- The candidate position computed by `change_entry_selection`: locate the
current selection in the freshly sorted list (`unwrap_or(0)` when there is no
selection or it is not found), applying the direction's stride with
saturating arithmetic (`Nat` subtraction saturates at 0) inside the `map`. -/
def next_selected_pos (entries : List EntryDataBundle) (sel : Option Nat)
    (direction : CursorDirection) : Nat :=
  match sel with
  | some selected =>
    ((find_position (fun b => b.index == selected) entries).map (fun idx =>
      match direction with
      | .PageDown => idx + 10
      | .Down => idx + 1
      | .Up => idx - 1
      | .PageUp => idx - 10)).getD 0
  | none => 0

/-- `change_entry_selection` from the source: freshly sort the current root's
children, compute the candidate position, and resolve the new selection as
the entry at that position, else the last entry, else the previous
selection.  Only `selected` is written back. -/
def change_entry_selection (t : Tree) (s : AppState) (direction : CursorDirection) : AppState :=
  let entries := sorted_entries t s.root s.sorting
  let new_selected :=
    (((entries.get? (next_selected_pos entries s.selected direction)).or
        entries.getLast?).map (fun b => b.index)).or s.selected
  { s with selected := new_selected }

/-- Whether the global dispatch layer breaks out of the event loop on this
key: interrupt (`Ctrl+c`) always, `q` only while the main pane is focussed. -/
def breakOn (a : App) (k : KeyEvt) : Bool :=
  match k with
  | .ctrl c => c == 'c'
  | .char c => c == 'q' && (match a.state.focussed with
      | .Main => true
      | .Help => false)
  | .other => false

/-- The global dispatch layer (non-breaking arms): help toggle, focus cycle,
and `q` while the help pane is focussed (leave the pane). -/
def globalKey (a : App) (k : KeyEvt) : App :=
  match k with
  | .char c =>
    if c = '?' then toggle_help_pane a
    else if c = '\t' then cycle_focus a
    else if c = 'q' then
      match a.state.focussed with
      | .Main => a
      | .Help => { state := { a.state with focussed := .Main }, help_pane := none }
    else a
  | _ => a

/-- The focus-specific dispatch layer, applied after the global layer: scroll
keys on the help pane; open/ascend/descend/movement/sort-toggle on the main
pane.  The byte-visualisation cycle (`g`) and the external opener result
affect no navigation state. -/
def focusKey (t : Tree) (a : App) (k : KeyEvt) : App :=
  match a.state.focussed with
  | .Help =>
    match k with
    | .ctrl c =>
      if c = 'u' then scroll_help a .PageUp
      else if c = 'd' then scroll_help a .PageDown
      else a
    | .char c =>
      if c = 'k' then scroll_help a .Up
      else if c = 'j' then scroll_help a .Down
      else a
    | .other => a
  | .Main =>
    match k with
    | .ctrl c =>
      if c = 'u' then { a with state := change_entry_selection t a.state .PageUp }
      else if c = 'd' then { a with state := change_entry_selection t a.state .PageDown }
      else a
    | .char c =>
      if c = 'O' then { a with state := open_that a.state }
      else if c = 'u' then { a with state := exit_node t a.state }
      else if c = 'o' then { a with state := enter_node t a.state }
      else if c = 'k' then { a with state := change_entry_selection t a.state .Up }
      else if c = 'j' then { a with state := change_entry_selection t a.state .Down }
      else if c = 's' then
        { a with state := { a.state with sorting := a.state.sorting.toggle_size } }
      else a
    | .other => a

/-- One iteration of `process_events`: clear the message, run the global
dispatch layer (possibly breaking out of the loop), then the focus-specific
layer.  The boolean is `true` when the loop exits on this key. -/
def processKey (t : Tree) (a : App) (k : KeyEvt) : App × Bool :=
  let a := { a with state := update_message a.state }
  if breakOn a k then (a, true)
  else (focusKey t (globalKey a k) k, false)

/-- The application state built by `initialize` once traversal has finished:
root at the tree's root, children sorted under the default (size-ascending)
sort mode, first entry selected, no message, main pane focussed, no help
overlay. -/
def initApp (t : Tree) : App :=
  let sorting : SortMode := .SizeAscending
  let root := t.root_index
  let entries := sorted_entries t root sorting
  let selected := (entries.get? 0).map (fun b => b.index)
  { state :=
      { root := root, selected := selected, entries := entries, sorting := sorting,
        message := none, focussed := .Main },
    help_pane := none }

/-- One non-breaking event-loop step. -/
def StepKey (t : Tree) (a a' : App) : Prop :=
  ∃ k, processKey t a k = (a', false)

/-- The states reachable from the initial state by a sequence of key
events processed without leaving the loop. -/
def Reachable (t : Tree) (a : App) : Prop :=
  Relation.ReflTransGen (StepKey t) (initApp t) a

/-- A navigation state has a valid selection for movement purposes when
`selected` is `none` with the freshly sorted child list of the current root
empty, or names the `index` of some element of that fresh list. -/
def SelValid (t : Tree) (s : AppState) : Prop :=
  (s.selected = none ∧ sorted_entries t s.root s.sorting = []) ∨
  ∃ b, b ∈ sorted_entries t s.root s.sorting ∧ s.selected = some b.index

/-- State-level form of the selection invariant: a root without children
forces an empty selection. -/
def InvSelS (t : Tree) (s : AppState) : Prop :=
  t.children s.root = [] → s.selected = none

/-- Focus/overlay consistency, in the direction the code maintains: the help
pane is focussed only while the overlay exists. -/
def InvFocus (a : App) : Prop :=
  a.state.focussed = FocussedPane.Help → a.help_pane.isSome = true

/-- The per-direction scroll stride of the help overlay, as a signed
integer. -/
def scrollDelta : CursorDirection → Int
  | .Down => 1
  | .Up => -1
  | .PageDown => 10
  | .PageUp => -10

/-- Example tree: root `0` with a single child `1`, which is a file (no
children) of size 5. -/
def t0 : Tree where
  children := fun n => if n = 0 then [1] else []
  parent := fun n => if n = 1 then some 0 else none
  size := fun n => if n = 1 then 5 else 0
  root_index := 0

/-- Example tree: root `0` with two files `1` (size 10) and `2` (size 20). -/
def t1 : Tree where
  children := fun n => if n = 0 then [1, 2] else []
  parent := fun n => if n = 1 then some 0 else if n = 2 then some 0 else none
  size := fun n => if n = 1 then 10 else if n = 2 then 20 else 0
  root_index := 0

/-- Example tree: root `0` containing directory `1`, which contains file
`2`. -/
def t2 : Tree where
  children := fun n => if n = 0 then [1] else if n = 1 then [2] else []
  parent := fun n => if n = 1 then some 0 else if n = 2 then some 1 else none
  size := fun n => if n = 2 then 7 else if n = 1 then 7 else 0
  root_index := 0

/-- The app of `t0` after pressing `?` from the initial state: help overlay
open and focussed. -/
def exApp1 : App := (processKey t0 (initApp t0) (KeyEvt.char '?')).1

/-- The app of `t0` after pressing `?` then Tab: focus cycled back to the
main pane while the overlay still exists. -/
def exApp2 : App := (processKey t0 exApp1 (KeyEvt.char '\t')).1

/-- The app of `t0` after pressing `o` from the initial state: a failed
descend into file `1`, which empties the stored entry list. -/
def exApp3 : App := (processKey t0 (initApp t0) (KeyEvt.char 'o')).1

/-- A state of `t0` whose stored entry list (empty) is stale with respect to
the current root's children. -/
def sC1 : AppState :=
  { root := 0, selected := some 1, entries := [], sorting := .SizeAscending,
    message := none, focussed := .Main }

/-- A state of `t1` whose selection `7` occurs nowhere in the root's child
list. -/
def sC5 : AppState :=
  { root := 0, selected := some 7, entries := [], sorting := .SizeAscending,
    message := none, focussed := .Main }

/-- A state of `t0` with no selection. -/
def sC10 : AppState :=
  { root := 0, selected := none, entries := [], sorting := .SizeAscending,
    message := none, focussed := .Main }

/-- An app with the help overlay open at scroll offset 5. -/
def aC9 : App :=
  { state :=
      { root := 0, selected := none, entries := [], sorting := .SizeAscending,
        message := none, focussed := .Help },
    help_pane := some 5 }

/-! ### Lemmas about the entry-list helpers -/

theorem length_insertBy (le : EntryDataBundle → EntryDataBundle → Bool) (x : EntryDataBundle) :
    ∀ l : List EntryDataBundle, (insertBy le x l).length = l.length + 1
  | [] => rfl
  | y :: ys => by
    simp only [insertBy]
    split
    · rfl
    · simp [List.length_cons, length_insertBy le x ys]

theorem length_sortBy (le : EntryDataBundle → EntryDataBundle → Bool) :
    ∀ l : List EntryDataBundle, (sortBy le l).length = l.length
  | [] => rfl
  | x :: xs => by simp [sortBy, length_insertBy, length_sortBy le xs]

theorem sorted_entries_length (t : Tree) (n : Nat) (m : SortMode) :
    (sorted_entries t n m).length = (t.children n).length := by
  cases m <;> simp [sorted_entries, length_sortBy]

theorem sorted_entries_eq_nil_iff (t : Tree) (n : Nat) (m : SortMode) :
    sorted_entries t n m = [] ↔ t.children n = [] := by
  constructor
  · intro h
    have hlen := congrArg List.length h
    rw [sorted_entries_length] at hlen
    exact List.eq_nil_of_length_eq_zero hlen
  · intro h
    have hlen : (sorted_entries t n m).length = 0 := by
      rw [sorted_entries_length, h]
      rfl
    exact List.eq_nil_of_length_eq_zero hlen

theorem find_position_eq_none {p : EntryDataBundle → Bool} :
    ∀ {l : List EntryDataBundle}, (∀ b ∈ l, p b = false) → find_position p l = none
  | [], _ => rfl
  | b :: bs, h => by
    simp only [find_position]
    rw [h b (List.mem_cons_self b bs)]
    simp [find_position_eq_none fun x hx => h x (List.mem_cons_of_mem b hx)]

theorem find_position_eq_some {p : EntryDataBundle → Bool} :
    ∀ {l : List EntryDataBundle} {i : Nat}, find_position p l = some i →
      ∃ b, l.get? i = some b ∧ p b = true := by
  intro l
  induction l with
  | nil => intro i h; simp [find_position] at h
  | cons b bs ih =>
    intro i h
    simp only [find_position] at h
    by_cases hb : p b
    · rw [if_pos hb] at h
      injection h with h
      exact ⟨b, by rw [← h]; rfl, hb⟩
    · rw [if_neg hb] at h
      cases hfp : find_position p bs with
      | none => rw [hfp] at h; simp at h
      | some j =>
        rw [hfp] at h
        simp only [Option.map_some'] at h
        injection h with h
        obtain ⟨c, hc, hpc⟩ := ih hfp
        refine ⟨c, ?_, hpc⟩
        rw [← h]
        exact hc

theorem getLast?_cons_isSome (b : EntryDataBundle) (bs : List EntryDataBundle) :
    ∃ c, (b :: bs).getLast? = some c := by
  cases hg : (b :: bs).getLast? with
  | some c => exact ⟨c, rfl⟩
  | none =>
    rw [List.getLast?_eq_getElem?, ← List.get?_eq_getElem?, List.get?_eq_none] at hg
    simp only [List.length_cons, Nat.add_sub_cancel] at hg
    omega

/-! ### Frame lemmas for the transition operations -/

theorem change_entry_selection_frame (t : Tree) (s : AppState) (d : CursorDirection) :
    (change_entry_selection t s d).root = s.root ∧
    (change_entry_selection t s d).entries = s.entries ∧
    (change_entry_selection t s d).sorting = s.sorting ∧
    (change_entry_selection t s d).message = s.message ∧
    (change_entry_selection t s d).focussed = s.focussed :=
  ⟨rfl, rfl, rfl, rfl, rfl⟩

theorem change_entry_selection_selected (t : Tree) (s : AppState) (d : CursorDirection) :
    (change_entry_selection t s d).selected =
      ((((sorted_entries t s.root s.sorting).get?
          (next_selected_pos (sorted_entries t s.root s.sorting) s.selected d)).or
        (sorted_entries t s.root s.sorting).getLast?).map (fun b => b.index)).or s.selected :=
  rfl

theorem enter_node_focussed (t : Tree) (s : AppState) :
    (enter_node t s).focussed = s.focussed := by
  unfold enter_node
  split
  · split <;> rfl
  · rfl

theorem enter_node_sorting (t : Tree) (s : AppState) :
    (enter_node t s).sorting = s.sorting := by
  unfold enter_node
  split
  · split <;> rfl
  · rfl

theorem exit_node_focussed (t : Tree) (s : AppState) :
    (exit_node t s).focussed = s.focussed := by
  unfold exit_node
  split <;> rfl

theorem scroll_help_state (a : App) (d : CursorDirection) :
    (scroll_help a d).state = a.state := by
  unfold scroll_help
  split <;> rfl

theorem scroll_help_isSome (a : App) (d : CursorDirection) :
    (scroll_help a d).help_pane.isSome = a.help_pane.isSome := by
  unfold scroll_help
  split
  · rename_i scroll heq
    rw [heq]
    rfl
  · rfl

/-! ### The focus/overlay invariant -/

theorem invFocus_setState (a : App) (s' : AppState) (hfoc : s'.focussed = a.state.focussed)
    (h : InvFocus a) : InvFocus { a with state := s' } := by
  intro hh
  exact h (by rw [← hfoc]; exact hh)

theorem invFocus_toggle (a : App) : InvFocus (toggle_help_pane a) := by
  unfold InvFocus toggle_help_pane
  cases a.state.focussed <;> simp

theorem invFocus_cycle (a : App) : InvFocus (cycle_focus a) := by
  unfold InvFocus cycle_focus
  cases hf : a.state.focussed <;> cases hp : a.help_pane <;> simp [hf, hp]

theorem invFocus_scroll (a : App) (d : CursorDirection) (h : InvFocus a) :
    InvFocus (scroll_help a d) := by
  unfold InvFocus
  rw [scroll_help_state, scroll_help_isSome]
  exact h

theorem invFocus_globalKey (a : App) (k : KeyEvt) (h : InvFocus a) :
    InvFocus (globalKey a k) := by
  unfold globalKey
  cases k with
  | char c =>
    dsimp only
    split_ifs
    · exact invFocus_toggle a
    · exact invFocus_cycle a
    · cases hf : a.state.focussed
      · exact h
      · intro hh
        exact absurd hh (by simp)
    · exact h
  | ctrl c => exact h
  | other => exact h

theorem invFocus_focusKey (t : Tree) (a : App) (k : KeyEvt) (h : InvFocus a) :
    InvFocus (focusKey t a k) := by
  unfold focusKey
  cases hf : a.state.focussed with
  | Help =>
    cases k with
    | ctrl c => dsimp only; split_ifs <;> first | exact invFocus_scroll a _ h | exact h
    | char c => dsimp only; split_ifs <;> first | exact invFocus_scroll a _ h | exact h
    | other => exact h
  | Main =>
    cases k with
    | ctrl c =>
      dsimp only
      split_ifs <;>
        first
          | exact invFocus_setState a _ ((change_entry_selection_frame t a.state _).2.2.2.2) h
          | exact h
    | char c =>
      dsimp only
      split_ifs
      · exact invFocus_setState a _ rfl h
      · exact invFocus_setState a _ (exit_node_focussed t a.state) h
      · exact invFocus_setState a _ (enter_node_focussed t a.state) h
      · exact invFocus_setState a _ ((change_entry_selection_frame t a.state _).2.2.2.2) h
      · exact invFocus_setState a _ ((change_entry_selection_frame t a.state _).2.2.2.2) h
      · exact invFocus_setState a _ rfl h
      · exact h
    | other => exact h

theorem invFocus_processKey (t : Tree) (a : App) (k : KeyEvt) (h : InvFocus a) :
    InvFocus (processKey t a k).1 := by
  unfold processKey
  have hmsg : InvFocus { a with state := update_message a.state } :=
    invFocus_setState a _ rfl h
  dsimp only
  split
  · exact hmsg
  · exact invFocus_focusKey t _ k (invFocus_globalKey _ k hmsg)

theorem invFocus_initApp (t : Tree) : InvFocus (initApp t) := by
  intro hh
  exact absurd hh (by simp [initApp])

theorem invFocus_reachable (t : Tree) (a : App) (h : Reachable t a) : InvFocus a := by
  induction h with
  | refl => exact invFocus_initApp t
  | tail _ hbc ih =>
    obtain ⟨k, hk⟩ := hbc
    have hp := invFocus_processKey t _ k ih
    rw [hk] at hp
    exact hp

/-! ### The selection invariant -/

theorem invSelS_congr {t : Tree} {s s' : AppState} (hr : s'.root = s.root)
    (hs : s'.selected = s.selected) (h : InvSelS t s) : InvSelS t s' := by
  intro hc
  rw [hs]
  exact h (by rwa [hr] at hc)

theorem selValid_invSelS (t : Tree) (s : AppState) (h : SelValid t s) : InvSelS t s := by
  intro hc
  rcases h with ⟨hn, _⟩ | ⟨b, hb, _⟩
  · exact hn
  · rw [(sorted_entries_eq_nil_iff t s.root s.sorting).mpr hc] at hb
    exact absurd hb (List.not_mem_nil b)

theorem change_selValid (t : Tree) (s : AppState) (d : CursorDirection) (h : InvSelS t s) :
    SelValid t (change_entry_selection t s d) := by
  have hroot : (change_entry_selection t s d).root = s.root := rfl
  have hsort : (change_entry_selection t s d).sorting = s.sorting := rfl
  unfold SelValid
  rw [hroot, hsort, change_entry_selection_selected]
  cases hnil : sorted_entries t s.root s.sorting with
  | nil =>
    left
    refine ⟨?_, rfl⟩
    have hsel : s.selected = none := h ((sorted_entries_eq_nil_iff t s.root s.sorting).mp hnil)
    simp [hsel]
  | cons b bs =>
    right
    cases hg : (b :: bs).get? (next_selected_pos (b :: bs) s.selected d) with
    | some c =>
      refine ⟨c, List.get?_mem hg, ?_⟩
      rfl
    | none =>
      obtain ⟨c, hc⟩ := getLast?_cons_isSome b bs
      refine ⟨c, List.mem_of_getLast?_eq_some hc, ?_⟩
      rw [hc]
      rfl

theorem change_invSelS (t : Tree) (s : AppState) (d : CursorDirection) (h : InvSelS t s) :
    InvSelS t (change_entry_selection t s d) :=
  selValid_invSelS _ _ (change_selValid t s d h)

theorem foldl_change_invSelS (t : Tree) (ds : List CursorDirection) :
    ∀ s : AppState, InvSelS t s → InvSelS t (ds.foldl (change_entry_selection t) s)
  | s, h => by
    induction ds generalizing s with
    | nil => exact h
    | cons d ds ih => exact ih _ (change_invSelS t s d h)

theorem invSelS_enter (t : Tree) (s : AppState) (h : InvSelS t s) :
    InvSelS t (enter_node t s) := by
  unfold enter_node
  split
  · rename_i n hn
    split
    · rename_i b hb
      intro hc
      rw [(sorted_entries_eq_nil_iff t n s.sorting).mpr hc] at hb
      simp at hb
    · exact invSelS_congr rfl rfl h
  · exact h

theorem invSelS_exit (t : Tree) (s : AppState) (h : InvSelS t s) :
    InvSelS t (exit_node t s) := by
  unfold exit_node
  split
  · rename_i p hp
    intro hc
    have hnil : sorted_entries t p s.sorting = [] :=
      (sorted_entries_eq_nil_iff t p s.sorting).mpr hc
    simp [hnil]
  · exact invSelS_congr rfl rfl h

theorem invSelS_globalKey (t : Tree) (a : App) (k : KeyEvt) (h : InvSelS t a.state) :
    InvSelS t (globalKey a k).state := by
  unfold globalKey
  cases k with
  | char c =>
    dsimp only
    split_ifs
    · unfold toggle_help_pane
      cases a.state.focussed <;> exact invSelS_congr rfl rfl h
    · exact invSelS_congr rfl rfl h
    · cases a.state.focussed
      · exact h
      · exact invSelS_congr rfl rfl h
    · exact h
  | ctrl c => exact h
  | other => exact h

theorem invSelS_focusKey (t : Tree) (a : App) (k : KeyEvt) (h : InvSelS t a.state) :
    InvSelS t (focusKey t a k).state := by
  unfold focusKey
  cases hf : a.state.focussed with
  | Help =>
    cases k with
    | ctrl c =>
      dsimp only
      split_ifs <;> first | (rw [scroll_help_state]; exact h) | exact h
    | char c =>
      dsimp only
      split_ifs <;> first | (rw [scroll_help_state]; exact h) | exact h
    | other => exact h
  | Main =>
    cases k with
    | ctrl c =>
      dsimp only
      split_ifs <;> first | exact change_invSelS t a.state _ h | exact h
    | char c =>
      dsimp only
      split_ifs
      · exact h
      · exact invSelS_exit t a.state h
      · exact invSelS_enter t a.state h
      · exact change_invSelS t a.state _ h
      · exact change_invSelS t a.state _ h
      · exact invSelS_congr rfl rfl h
      · exact h
    | other => exact h

theorem invSelS_processKey (t : Tree) (a : App) (k : KeyEvt) (h : InvSelS t a.state) :
    InvSelS t (processKey t a k).1.state := by
  unfold processKey
  have hmsg : InvSelS t (update_message a.state) := invSelS_congr rfl rfl h
  dsimp only
  split
  · exact hmsg
  · exact invSelS_focusKey t _ k (invSelS_globalKey t _ k hmsg)

theorem invSelS_initApp (t : Tree) : InvSelS t (initApp t).state := by
  intro hc
  have hnil : sorted_entries t t.root_index .SizeAscending = [] :=
    (sorted_entries_eq_nil_iff t t.root_index .SizeAscending).mpr hc
  simp [initApp, hnil]

theorem invSelS_reachable (t : Tree) (a : App) (h : Reachable t a) : InvSelS t a.state := by
  induction h with
  | refl => exact invSelS_initApp t
  | tail _ hbc ih =>
    obtain ⟨k, hk⟩ := hbc
    have hp := invSelS_processKey t _ k ih
    rw [hk] at hp
    exact hp

theorem resolve_at_or_past_last (l : List EntryDataBundle) (pos : Nat) (sel : Option Nat)
    (hne : l ≠ []) (hge : pos + 1 ≥ l.length) :
    (((l.get? pos).or l.getLast?).map (fun b => b.index)).or sel =
      l.getLast?.map (fun b => b.index) := by
  obtain ⟨c, hc⟩ : ∃ c, l.getLast? = some c := by
    cases l with
    | nil => exact absurd rfl hne
    | cons b bs => exact getLast?_cons_isSome b bs
  cases hg : l.get? pos with
  | none =>
    rw [hc]
    rfl
  | some c₂ =>
    have hlt : pos < l.length := by
      by_contra hh
      rw [List.get?_eq_none.mpr (Nat.le_of_not_lt hh)] at hg
      exact Option.noConfusion hg
    have hpos : l.length - 1 = pos := by omega
    have hlast : l.getLast? = some c₂ := by
      rw [List.getLast?_eq_getElem?, hpos, ← List.get?_eq_getElem?]
      exact hg
    rw [hlast]
    rfl

/-! ### Claim theorems -/

/-- C1 (counterexample): the claim that every selection-movement key rebuilds
the navigation state's `entries` field as the freshly sorted child list of
the current root under the current sorting is false: from a state of `t0`
whose stored entry list is empty, a `down` key leaves `entries` empty while
the freshly sorted child list of the (unchanged) root is non-empty. -/
theorem C1_cex :
    (change_entry_selection t0 sC1 CursorDirection.Down).entries = [] ∧
    sorted_entries t0 (change_entry_selection t0 sC1 CursorDirection.Down).root
      (change_entry_selection t0 sC1 CursorDirection.Down).sorting =
      [{ index := 1, size := 5 }] ∧
    (change_entry_selection t0 sC1 CursorDirection.Down).entries ≠
      sorted_entries t0 (change_entry_selection t0 sC1 CursorDirection.Down).root
        (change_entry_selection t0 sC1 CursorDirection.Down).sorting := by
  refine ⟨by decide, by decide, by decide⟩

/-- C1 (amended): a selection-movement key computes the freshly sorted child
list of the current root only locally: the stored `entries` field is left
unchanged, and the new selection does not depend on the stored `entries`
field at all. -/
theorem C1_amended (t : Tree) (s : AppState) (d : CursorDirection)
    (e : List EntryDataBundle) :
    (change_entry_selection t s d).entries = s.entries ∧
    (change_entry_selection t s d).selected =
      (change_entry_selection t { s with entries := e } d).selected :=
  ⟨rfl, rfl⟩

/-- C2 (counterexample): the claim that a failed descend (selected node with
no children) leaves `entries` unchanged is false: in the initial state of
`t0` the stored entry list is non-empty, and descending into file `1`
empties it. -/
theorem C2_cex :
    (initApp t0).state.selected = some 1 ∧ t0.children 1 = [] ∧
    (initApp t0).state.entries = [{ index := 1, size := 5 }] ∧
    (enter_node t0 (initApp t0).state).entries = [] ∧
    (enter_node t0 (initApp t0).state).entries ≠ (initApp t0).state.entries := by
  refine ⟨by decide, by decide, by decide, by decide, by decide⟩

/-- C2 (amended): when `selected` is `Some n` and `n` has no children, the
enter-directory operation leaves `root`, `selected`, `sorting` and `focussed`
unchanged and sets `message` to "Entry is a file or an empty directory", but
replaces `entries` with the (empty) sorted child list of `n`. -/
theorem C2_amended (t : Tree) (s : AppState) (n : Nat)
    (hsel : s.selected = some n) (hleaf : t.children n = []) :
    (enter_node t s).root = s.root ∧ (enter_node t s).selected = s.selected ∧
    (enter_node t s).sorting = s.sorting ∧ (enter_node t s).focussed = s.focussed ∧
    (enter_node t s).entries = [] ∧
    (enter_node t s).message = some "Entry is a file or an empty directory" := by
  have hnil : sorted_entries t n s.sorting = [] :=
    (sorted_entries_eq_nil_iff t n s.sorting).mpr hleaf
  unfold enter_node
  rw [hsel]
  dsimp only
  rw [hnil]
  exact ⟨rfl, rfl, rfl, rfl, rfl, rfl⟩

/-- C2 (witness): the amended C2 instantiated on `t0` at its initial state,
whose selection is file `1`. -/
theorem C2_amended_witness :
    (enter_node t0 (initApp t0).state).root = (initApp t0).state.root ∧
    (enter_node t0 (initApp t0).state).selected = (initApp t0).state.selected ∧
    (enter_node t0 (initApp t0).state).sorting = (initApp t0).state.sorting ∧
    (enter_node t0 (initApp t0).state).focussed = (initApp t0).state.focussed ∧
    (enter_node t0 (initApp t0).state).entries = [] ∧
    (enter_node t0 (initApp t0).state).message =
      some "Entry is a file or an empty directory" :=
  C2_amended t0 (initApp t0).state 1 (by decide) (by decide)

/-- C8: when the current root has no parent, exit-directory leaves `root`,
`selected` and `entries` unchanged and sets `message` to the non-empty
string "Top level reached". -/
theorem C8_top_level (t : Tree) (s : AppState) (h : t.parent s.root = none) :
    (exit_node t s).root = s.root ∧ (exit_node t s).selected = s.selected ∧
    (exit_node t s).entries = s.entries ∧
    (exit_node t s).message = some "Top level reached" := by
  unfold exit_node
  rw [h]
  dsimp only
  exact ⟨rfl, rfl, rfl, rfl⟩

/-- C8 (witness): C8 instantiated on `t0` at its initial state, whose root is
the top of the tree. -/
theorem C8_top_level_witness :
    (exit_node t0 (initApp t0).state).root = (initApp t0).state.root ∧
    (exit_node t0 (initApp t0).state).selected = (initApp t0).state.selected ∧
    (exit_node t0 (initApp t0).state).entries = (initApp t0).state.entries ∧
    (exit_node t0 (initApp t0).state).message = some "Top level reached" :=
  C8_top_level t0 (initApp t0).state (by decide)

/-- C9: while the help overlay exists, every scroll adjustment is by the
direction's stride (1 for up/down, 10 for page movements) with saturating
arithmetic: the new offset is the old offset plus the signed stride, clamped
below at 0, so it never goes below 0 and never wraps. -/
theorem C9_scroll_saturating (a : App) (p : Nat) (hp : a.help_pane = some p)
    (d : CursorDirection) :
    ∃ q : Nat, (scroll_help a d).help_pane = some q ∧
      (q : Int) = max ((p : Int) + scrollDelta d) 0 := by
  unfold scroll_help
  rw [hp]
  dsimp only
  cases d with
  | Down => exact ⟨p + 1, rfl, by simp only [scrollDelta]; rw [max_def]; split_ifs <;> omega⟩
  | Up => exact ⟨p - 1, rfl, by simp only [scrollDelta]; rw [max_def]; split_ifs <;> omega⟩
  | PageDown =>
    exact ⟨p + 10, rfl, by simp only [scrollDelta]; rw [max_def]; split_ifs <;> omega⟩
  | PageUp =>
    exact ⟨p - 10, rfl, by simp only [scrollDelta]; rw [max_def]; split_ifs <;> omega⟩

/-- C9 (witness): C9 instantiated at an overlay scrolled to offset 5 and the
`up` key. -/
theorem C9_scroll_saturating_witness :
    ∃ q : Nat, (scroll_help aC9 CursorDirection.Up).help_pane = some q ∧
      (q : Int) = max (((5 : Nat) : Int) + scrollDelta CursorDirection.Up) 0 :=
  C9_scroll_saturating aC9 5 rfl CursorDirection.Up

/-- C10: a selection-movement key pressed while `selected` is `None` does not
apply the direction's delta: the new selection is the first entry of the
freshly sorted child list of the current root (hence `None` exactly when that
list is empty), for every direction. -/
theorem C10_none_selected (t : Tree) (s : AppState) (h : s.selected = none)
    (d : CursorDirection) :
    (change_entry_selection t s d).selected =
      ((sorted_entries t s.root s.sorting).get? 0).map (fun b => b.index) := by
  have hpos : next_selected_pos (sorted_entries t s.root s.sorting) s.selected d = 0 := by
    unfold next_selected_pos
    rw [h]
  rw [change_entry_selection_selected, hpos, h]
  cases hg : (sorted_entries t s.root s.sorting).get? 0 with
  | some b => rfl
  | none =>
    have hnil : sorted_entries t s.root s.sorting = [] :=
      List.eq_nil_of_length_eq_zero (Nat.le_zero.mp (List.get?_eq_none.mp hg))
    rw [hnil]
    rfl

/-- C10 (witness): C10 instantiated on `t0` at a selection-free state with
the `page-up` key: the first (only) entry gets selected. -/
theorem C10_none_selected_witness :
    (change_entry_selection t0 sC10 CursorDirection.PageUp).selected =
      ((sorted_entries t0 sC10.root sC10.sorting).get? 0).map (fun b => b.index) :=
  C10_none_selected t0 sC10 rfl CursorDirection.PageUp

/-- C3 (counterexample): the claimed equivalence "focus is `Help` iff the
help overlay exists" fails on a reachable state: pressing `?` then Tab from
the initial state of `t0` yields a state whose overlay exists while focus is
`Main` (Tab cycles focus without destroying the overlay). -/
theorem C3_cex :
    Reachable t0 exApp2 ∧ exApp2.help_pane = some 0 ∧
    exApp2.state.focussed = FocussedPane.Main ∧
    ¬(exApp2.state.focussed = FocussedPane.Help ↔ exApp2.help_pane.isSome = true) := by
  refine ⟨?_, by decide, by decide, by decide⟩
  have h1 : StepKey t0 (initApp t0) exApp1 := ⟨KeyEvt.char '?', by decide⟩
  have h2 : StepKey t0 exApp1 exApp2 := ⟨KeyEvt.char '\t', by decide⟩
  exact Relation.ReflTransGen.tail (Relation.ReflTransGen.single h1) h2

/-- C3 (amended): in every state reachable from the initial state by key
events, focus `Help` implies the help overlay exists; the converse direction
does not hold (cycle-focus leaves the overlay while moving focus to
`Main`). -/
theorem C3_amended (t : Tree) (a : App) (h : Reachable t a)
    (hf : a.state.focussed = FocussedPane.Help) : a.help_pane.isSome = true :=
  invFocus_reachable t a h hf

/-- C3 (witness): the amended C3 applied to the reachable state of `t0` after
pressing `?`, where the help pane is focussed. -/
theorem C3_amended_witness : exApp1.help_pane.isSome = true :=
  C3_amended t0 exApp1 (Relation.ReflTransGen.single ⟨KeyEvt.char '?', by decide⟩) (by decide)

/-- C4 (counterexample): the claim that after each movement key `selected` is
`None` or the index of some element of the stored `entries` field fails: from
the reachable state of `t0` after a failed descend (which empties `entries`),
a `down` key leaves `selected = some 1` while `entries` stays empty. -/
theorem C4_cex :
    Reachable t0 exApp3 ∧
    (change_entry_selection t0 exApp3.state CursorDirection.Down).selected = some 1 ∧
    (change_entry_selection t0 exApp3.state CursorDirection.Down).entries = [] := by
  refine ⟨Relation.ReflTransGen.single ⟨KeyEvt.char 'o', by decide⟩, by decide, by decide⟩

/-- C4 (amended): for every sequence of selection-movement keys applied from
a reachable state, after each key `selected` is either `None` (and only when
the freshly sorted child list of the current root is empty) or equals the
`index` of some element of that freshly sorted child list — rather than of
the stored `entries` field, which may be stale. -/
theorem C4_amended (t : Tree) (a : App) (h : Reachable t a)
    (ds : List CursorDirection) (d : CursorDirection) :
    SelValid t (change_entry_selection t (ds.foldl (change_entry_selection t) a.state) d) :=
  change_selValid t _ d (foldl_change_invSelS t ds a.state (invSelS_reachable t a h))

/-- C4 (witness): the amended C4 applied at the initial state of `t0` with
the one-key sequence `down`. -/
theorem C4_amended_witness :
    SelValid t0 (change_entry_selection t0
      (([] : List CursorDirection).foldl (change_entry_selection t0) (initApp t0).state)
      CursorDirection.Down) :=
  C4_amended t0 (initApp t0) Relation.ReflTransGen.refl [] CursorDirection.Down

/-- C5 (counterexample): the claim that a missing selection position is
treated as 0 and then the delta applied (so `down` selects position 1) is
false: on `t1`, with `selected = some 7` absent from the two-entry child
list, `down` selects the entry at position 0 (index 1), not the entry at
position 0 + 1 (index 2). -/
theorem C5_cex :
    sorted_entries t1 sC5.root sC5.sorting =
      [{ index := 1, size := 10 }, { index := 2, size := 20 }] ∧
    sC5.selected = some 7 ∧
    (∀ b ∈ sorted_entries t1 sC5.root sC5.sorting, b.index ≠ 7) ∧
    (change_entry_selection t1 sC5 CursorDirection.Down).selected = some 1 ∧
    (change_entry_selection t1 sC5 CursorDirection.Down).selected ≠
      ((sorted_entries t1 sC5.root sC5.sorting).get? (0 + 1)).map (fun b => b.index) := by
  refine ⟨by decide, by decide, by decide, by decide, by decide⟩

/-- C5 (amended): when `selected` is `Some x` but `x` does not occur in the
rebuilt entry list, the candidate position is 0 with no delta applied
(`unwrap_or(0)` bypasses the stride entirely): every movement key then
selects the first entry of the rebuilt list, and leaves the selection
unchanged when that list is empty. -/
theorem C5_amended (t : Tree) (s : AppState) (x : Nat) (d : CursorDirection)
    (hsel : s.selected = some x)
    (hnotin : ∀ b ∈ sorted_entries t s.root s.sorting, b.index ≠ x) :
    (sorted_entries t s.root s.sorting = [] →
      (change_entry_selection t s d).selected = s.selected) ∧
    ∀ b, (sorted_entries t s.root s.sorting).get? 0 = some b →
      (change_entry_selection t s d).selected = some b.index := by
  have hfp : find_position (fun b => b.index == x) (sorted_entries t s.root s.sorting) = none :=
    find_position_eq_none fun b hb => by simpa using hnotin b hb
  have hpos : next_selected_pos (sorted_entries t s.root s.sorting) s.selected d = 0 := by
    unfold next_selected_pos
    rw [hsel]
    dsimp only
    rw [hfp]
    rfl
  constructor
  · intro hnil
    rw [change_entry_selection_selected, hpos, hnil]
    rfl
  · intro b hb
    rw [change_entry_selection_selected, hpos, hb]
    rfl

/-- C5 (witness): the amended C5 on `t1` with absent selection 7: `down`
selects the first entry, index 1. -/
theorem C5_amended_witness :
    (sorted_entries t1 sC5.root sC5.sorting = [] →
      (change_entry_selection t1 sC5 CursorDirection.Down).selected = sC5.selected) ∧
    ∀ b, (sorted_entries t1 sC5.root sC5.sorting).get? 0 = some b →
      (change_entry_selection t1 sC5 CursorDirection.Down).selected = some b.index :=
  C5_amended t1 sC5 7 CursorDirection.Down (by decide) (by decide)

/-- C6: in a non-empty rebuilt entry list, moving `up` or `page-up` when the
selected entry is at position 0 leaves `selected` unchanged, and moving
`down` or `page-down` when the candidate position is at or past the last
position sets `selected` to the last entry's index. -/
theorem C6_clamping (t : Tree) (s : AppState) (x p : Nat)
    (hsel : s.selected = some x)
    (hfind : find_position (fun b => b.index == x)
      (sorted_entries t s.root s.sorting) = some p) :
    (p = 0 →
      (change_entry_selection t s CursorDirection.Up).selected = s.selected ∧
      (change_entry_selection t s CursorDirection.PageUp).selected = s.selected) ∧
    (p + 1 + 1 ≥ (sorted_entries t s.root s.sorting).length →
      (change_entry_selection t s CursorDirection.Down).selected =
        (sorted_entries t s.root s.sorting).getLast?.map (fun b => b.index)) ∧
    (p + 10 + 1 ≥ (sorted_entries t s.root s.sorting).length →
      (change_entry_selection t s CursorDirection.PageDown).selected =
        (sorted_entries t s.root s.sorting).getLast?.map (fun b => b.index)) := by
  obtain ⟨b0, hb0, hbx⟩ := find_position_eq_some hfind
  have hne : sorted_entries t s.root s.sorting ≠ [] := by
    intro hh
    rw [hh] at hb0
    exact Option.noConfusion hb0
  have hposd : ∀ d : CursorDirection,
      next_selected_pos (sorted_entries t s.root s.sorting) s.selected d =
        (match d with
          | CursorDirection.PageDown => p + 10
          | CursorDirection.Down => p + 1
          | CursorDirection.Up => p - 1
          | CursorDirection.PageUp => p - 10) := by
    intro d
    unfold next_selected_pos
    rw [hsel]
    dsimp only
    rw [hfind]
    rfl
  have hb0i : b0.index = x := by simpa using hbx
  refine ⟨?_, ?_, ?_⟩
  · intro hp0
    subst hp0
    constructor
    · rw [change_entry_selection_selected, hposd CursorDirection.Up]
      dsimp only
      rw [hb0, hsel]
      exact congrArg some hb0i
    · rw [change_entry_selection_selected, hposd CursorDirection.PageUp]
      dsimp only
      rw [hb0, hsel]
      exact congrArg some hb0i
  · intro hge
    rw [change_entry_selection_selected, hposd CursorDirection.Down]
    exact resolve_at_or_past_last _ (p + 1) s.selected hne (by omega)
  · intro hge
    rw [change_entry_selection_selected, hposd CursorDirection.PageDown]
    exact resolve_at_or_past_last _ (p + 10) s.selected hne (by omega)

/-- C6 (witness): C6 on `t1` at its initial state, whose selection (index 1)
sits at position 0 of the two-entry list: `up` stays, `down`/`page-down`
clamp to the last entry. -/
theorem C6_clamping_witness :
    (0 = 0 →
      (change_entry_selection t1 (initApp t1).state CursorDirection.Up).selected =
        (initApp t1).state.selected ∧
      (change_entry_selection t1 (initApp t1).state CursorDirection.PageUp).selected =
        (initApp t1).state.selected) ∧
    (0 + 1 + 1 ≥ (sorted_entries t1 (initApp t1).state.root (initApp t1).state.sorting).length →
      (change_entry_selection t1 (initApp t1).state CursorDirection.Down).selected =
        (sorted_entries t1 (initApp t1).state.root
          (initApp t1).state.sorting).getLast?.map (fun b => b.index)) ∧
    (0 + 10 + 1 ≥ (sorted_entries t1 (initApp t1).state.root (initApp t1).state.sorting).length →
      (change_entry_selection t1 (initApp t1).state CursorDirection.PageDown).selected =
        (sorted_entries t1 (initApp t1).state.root
          (initApp t1).state.sorting).getLast?.map (fun b => b.index)) :=
  C6_clamping t1 (initApp t1).state 1 0 (by decide) (by decide)

/-- Well-formedness of the example tree `t2`. -/
theorem t2_wf : Tree.WF t2 := by
  intro p c hc
  by_cases h0 : p = 0
  · subst h0
    simp [t2] at hc
    subst hc
    decide
  · by_cases h1 : p = 1
    · subst h1
      simp [t2] at hc
      subst hc
      decide
    · simp [t2, h0, h1] at hc

/-- C7: when enter-directory succeeds (the selected node `n` is a child of
the current root and itself has children), enter-directory immediately
followed by exit-directory restores `root` and sets `selected` to the first
entry of the prior root's freshly sorted child list (its representative
entry). -/
theorem C7_enter_exit (t : Tree) (s : AppState) (n : Nat)
    (hwf : Tree.WF t) (hmem : n ∈ t.children s.root) (hsel : s.selected = some n)
    (hsucc : t.children n ≠ []) :
    (exit_node t (enter_node t s)).root = s.root ∧
    (exit_node t (enter_node t s)).selected =
      ((sorted_entries t s.root s.sorting).get? 0).map (fun b => b.index) := by
  have hnil : sorted_entries t n s.sorting ≠ [] := by
    rw [Ne, sorted_entries_eq_nil_iff]
    exact hsucc
  obtain ⟨b, hb⟩ : ∃ b, (sorted_entries t n s.sorting).get? 0 = some b := by
    cases hl : sorted_entries t n s.sorting with
    | nil => exact absurd hl hnil
    | cons c cs => exact ⟨c, rfl⟩
  unfold enter_node
  rw [hsel]
  dsimp only
  rw [hb]
  unfold exit_node
  dsimp only
  rw [hwf s.root n hmem]
  exact ⟨rfl, rfl⟩

/-- C7 (witness): C7 on `t2` at its initial state: entering directory `1` and
immediately exiting restores root `0` and selects the first entry of its
child list. -/
theorem C7_enter_exit_witness :
    (exit_node t2 (enter_node t2 (initApp t2).state)).root = (initApp t2).state.root ∧
    (exit_node t2 (enter_node t2 (initApp t2).state)).selected =
      ((sorted_entries t2 (initApp t2).state.root
        (initApp t2).state.sorting).get? 0).map (fun b => b.index) :=
  C7_enter_exit t2 (initApp t2).state 1 t2_wf (by decide) (by decide) (by decide)

end Dua
